import Mathlib

/-!
Verification of ec2-macos-utils (watchdog / sysdiagnose components).

Shallow embedding of:
- `internal/system` : `parseIOPlatformUUID` (identity resolver line matcher);
- `internal/sysdiagnose/create_sysdiagnose.go` : `Collect` (name validation,
  ephemeral workspace lifecycle, open-then-unlink hand-off);
- `internal/cmd/debug.go` : `runSysdiagnose` persistence step;
- `internal/cmd/network_health_monitor.go` : startup checks, validation and
  the polling/collection loop.

Strings are modelled as `List Char`; Go `time.Duration` as `Int` nanoseconds;
file contents as `List Nat` (byte lists).  External effects (probe result,
external process success, directory-creation outcomes) are inputs to the
model, mirroring the pass/fail contracts the code consumes.
-/

namespace EC2MacosUtils

/-! ## Go `unicode.IsSpace` (the set used by `strings.Fields`) -/

/-- Whitespace per Go `unicode.IsSpace` (code points in Unicode White_Space). -/
def goIsSpace (c : Char) : Bool :=
  c.toNat ∈ [0x9, 0xA, 0xB, 0xC, 0xD, 0x20, 0x85, 0xA0, 0x1680,
    0x2000, 0x2001, 0x2002, 0x2003, 0x2004, 0x2005, 0x2006, 0x2007,
    0x2008, 0x2009, 0x200A, 0x2028, 0x2029, 0x202F, 0x205F, 0x3000]

/-- Go `strings.Fields`: split around runs of whitespace, no empty fields. -/
def fields : List Char → List (List Char)
  | [] => []
  | c :: s =>
    if goIsSpace c then fields s
    else
      match s with
      | [] => [[c]]
      | d :: _ =>
        if goIsSpace d then [c] :: fields s
        else (c :: (fields s).headD []) :: (fields s).tail

/-- Go `strings.ReplaceAll(line, quote, empty)`: drop every double quote. -/
def stripQuotes (s : List Char) : List Char := s.filter (fun c => !(c == '"'))

/-- The quoted key literal `platformUUIDKeyToken` from `parseIOPlatformUUID`. -/
def uuidKeyQuoted : List Char :=
  ['"', 'I', 'O', 'P', 'l', 'a', 't', 'f', 'o', 'r', 'm', 'U', 'U', 'I', 'D', '"']

/-- `strings.Trim(platformUUIDKeyToken, quote)`: the bare key. -/
def uuidKey : List Char :=
  ['I', 'O', 'P', 'l', 'a', 't', 'f', 'o', 'r', 'm', 'U', 'U', 'I', 'D']

/-- One loop iteration of `parseIOPlatformUUID` on a single scanned line:
`none` means the scan continues (the source `continue`s), `some v` means the
function returns `v`.  Mirrors: the `strings.Contains` pre-filter, then
`strings.Fields(strings.ReplaceAll(line, quote, empty))`, the field-count
check, the key check and the non-empty check. -/
def lineUUID (line : List Char) : Option (List Char) :=
  if !(decide (uuidKeyQuoted <:+: line)) then none
  else
    match fields (stripQuotes line) with
    | [k, _, v] =>
      if !(k == uuidKey) then none
      else if v == [] then none
      else some v
    | _ => none

/-- Whether the line matcher accepts the line (extracts a value from it). -/
def lineAccept (line : List Char) : Bool := (lineUUID line).isSome

/-- The acceptance condition exactly as the spec sentence words it:
after stripping quote characters the line decomposes into exactly 3
whitespace-separated fields, field 1 equals the key, field 3 is non-empty. -/
def specLineOk (line : List Char) : Bool :=
  match fields (stripQuotes line) with
  | [k, _, v] => k == uuidKey && !(v == [])
  | _ => false

/-- `bufio.ScanLines` line splitting: split on newline; a final newline does
not produce an extra empty token. -/
def splitLines (data : List Char) : List (List Char) :=
  match data with
  | [] => []
  | c :: rest =>
    match splitLines rest with
    | [] => if c == '\n' then [[]] else [[c]]
    | l :: ls => if c == '\n' then [] :: l :: ls else (c :: l) :: ls

/-- `bufio.ScanLines` also strips one trailing carriage return per line. -/
def dropCR (l : List Char) : List Char :=
  if l.getLast? == some '\r' then l.dropLast else l

/-- The scanner loop of `parseIOPlatformUUID` over the scanned lines. -/
def scanLinesUUID : List (List Char) → Option (List Char)
  | [] => none
  | l :: ls =>
    match lineUUID l with
    | some v => some v
    | none => scanLinesUUID ls

/-- `parseIOPlatformUUID`: scan the ioreg output line by line; `none` models
the "UUID not found in ioreg output" error.  `GetHostIOPlatformUUID` returns
this value unchanged on query success. -/
def parseUUIDFromOutput (data : List Char) : Option (List Char) :=
  scanLinesUUID ((splitLines data).map dropCR)

/-! ## Go `path/filepath` lexical functions (Unix rules), used by `Collect` -/

/-- Split a path into its `/`-separated segments (keeping empty segments). -/
def splitSegs : List Char → List (List Char)
  | [] => [[]]
  | c :: rest =>
    let r := splitSegs rest
    if c = '/' then [] :: r
    else (c :: r.headD []) :: r.tail

/-- Rejoin segments with `/`. -/
def joinSegs : List (List Char) → List Char
  | [] => []
  | [s] => s
  | s :: rest => s ++ '/' :: joinSegs rest

/-- One step of `filepath.Clean`'s element processing (stack held reversed):
empty and `.` elements are dropped; `..` pops a non-`..` element, is dropped
at the top of a rooted path, and is kept otherwise. -/
def cleanStep (rooted : Bool) (stack : List (List Char)) (seg : List Char) :
    List (List Char) :=
  if seg = [] then stack
  else if seg = ['.'] then stack
  else if seg = ['.', '.'] then
    match stack with
    | [] => if rooted then [] else [['.', '.']]
    | top :: rest => if top = ['.', '.'] then seg :: stack else rest
  else seg :: stack

/-- Process all elements of a path, `filepath.Clean` style. -/
def cleanSegs (rooted : Bool) (l : List (List Char)) : List (List Char) :=
  (l.foldl (cleanStep rooted) []).reverse

/-- Go `filepath.Clean` (Unix separator). -/
def goClean (p : List Char) : List Char :=
  if p = [] then ['.']
  else if p.headD ' ' = '/' then '/' :: joinSegs (cleanSegs true (splitSegs p))
  else if cleanSegs false (splitSegs p) = [] then ['.']
  else joinSegs (cleanSegs false (splitSegs p))

/-- Go `filepath.Base` (Unix separator): strip trailing separators, then the
part after the last separator; `/` for all-separator paths, `.` for empty. -/
def goBase (p : List Char) : List Char :=
  if p = [] then ['.']
  else
    let q := (p.reverse.dropWhile (fun c => c = '/')).reverse
    if q = [] then ['/']
    else (q.reverse.takeWhile (fun c => !(c = '/'))).reverse

/-- Go `filepath.Join` on two non-degenerate elements. -/
def goJoin (a b : List Char) : List Char :=
  if a = [] then if b = [] then [] else goClean b
  else if b = [] then goClean a
  else goClean (a ++ '/' :: b)

/-! ## `sysdiagnose.Collect` -/

/-- The archive-name validation at the top of `Collect`: reject the empty
name, and reject any name whose `filepath.Base` differs from its
`filepath.Clean`. -/
def collectNameOk (archiveName : List Char) : Bool :=
  !archiveName.isEmpty && (goBase archiveName == goClean archiveName)

/-- The fixed `.tar.gz` extension appended by `Collect`. -/
def archiveExt : List Char := ['.', 't', 'a', 'r', '.', 'g', 'z']

/-- `archiveOutputPath := filepath.Join(workDir, archiveName + ".tar.gz")`. -/
def archiveOutputPath (workDir archiveName : List Char) : List Char :=
  goJoin workDir (archiveName ++ archiveExt)

/-- A concrete `os.MkdirTemp` result for the `sysdiagnose-helper*` pattern. -/
def tmpWorkDir : List Char := "/tmp/sysdiagnose-helper1".data

/-! ## Filesystem state model

Directory entries map paths to file ids; `contents` keeps each file id's
bytes, which (as on Unix) stay readable through an open handle after the
directory entry is unlinked.  Handles are modelled by the file id. -/

structure FSState where
  dirs : List (List Char)
  files : List (List Char × Nat)
  contents : List (Nat × List Nat)
  nextId : Nat
  deriving Repr, DecidableEq

/-- The empty filesystem. -/
def fs0 : FSState := ⟨[], [], [], 0⟩

/-- Look up the file id a path currently names (none: no directory entry). -/
def lookupFile (st : FSState) (p : List Char) : Option Nat :=
  (st.files.find? (fun e => e.1 == p)).map (fun e => e.2)

/-- Read through an open handle: the bytes of the handle's file id. -/
def readHandle (st : FSState) (fid : Nat) : Option (List Nat) :=
  (st.contents.find? (fun e => e.1 == fid)).map (fun e => e.2)

/-- `os.Remove p` on the entry map (unlink: contents stay for open handles). -/
def removeFile (st : FSState) (p : List Char) : FSState :=
  { st with files := st.files.filter (fun e => !(e.1 == p)) }

/-- Whether `p` is `d` itself or lexically under directory `d`. -/
def pathUnder (d p : List Char) : Bool :=
  p == d || (d ++ ['/']).isPrefixOf p

/-- `os.RemoveAll d`: drop the directory and every entry under it. -/
def removeAllDir (st : FSState) (d : List Char) : FSState :=
  { st with
    dirs := st.dirs.filter (fun x => !(pathUnder d x)),
    files := st.files.filter (fun e => !(pathUnder d e.1)) }

/-! ## `sysdiagnose.Collect` execution model -/

/-- Error classes surfaced by `Collect`. -/
inductive CErr where
  | invalidName
  | workspaceCreate
  | chmodFail
  | procRun
  deriving Repr, DecidableEq

/-- Injected outcomes of the fallible external steps of `Collect`:
`os.MkdirTemp`, `os.Chmod`, and the external `sysdiagnose` process run (a
non-zero exit or a cancelled context both surface through `cmd.Run`). -/
structure CollectFaults where
  mkdirTempFails : Bool
  chmodFails : Bool
  procFails : Bool
  deriving Repr, DecidableEq

/-- `Collect(ctx, archiveName)`, step for step from the source:
name validation; `os.MkdirTemp`; `os.Chmod` (the `defer os.RemoveAll(workDir)`
is registered only after a successful chmod); running the external process,
which on success creates the archive at `archiveOutputPath`; opening a read
handle on it; unlinking its directory entry; and the deferred removal of the
workspace on every later exit path.  Returns the handle's file id. -/
def collectRun (f : CollectFaults) (st : FSState) (workDir archiveName : List Char)
    (archiveBytes : List Nat) : Except CErr Nat × FSState :=
  if archiveName.isEmpty then (.error .invalidName, st)
  else if !(goBase archiveName == goClean archiveName) then (.error .invalidName, st)
  else if f.mkdirTempFails then (.error .workspaceCreate, st)
  else
    let st1 := { st with dirs := workDir :: st.dirs }
    if f.chmodFails then (.error .chmodFail, st1)
    else if f.procFails then (.error .procRun, removeAllDir st1 workDir)
    else
      let path := archiveOutputPath workDir archiveName
      let fid := st1.nextId
      let st2 := { st1 with
        files := (path, fid) :: st1.files,
        contents := (fid, archiveBytes) :: st1.contents,
        nextId := fid + 1 }
      let st3 := removeFile st2 path
      (.ok fid, removeAllDir st3 workDir)

/-! ## Archive persistence (`runSysdiagnose` file-writing step) -/

/-- Error classes of the persistence step. -/
inductive PErr where
  | alreadyExists
  | copyFail
  deriving Repr, DecidableEq

/-- The persistence step of `runSysdiagnose`: `os.OpenFile(outputPath,
O_WRONLY|O_CREATE|O_EXCL, 0400)` fails when the path already names a file,
leaving the state untouched; otherwise the file is created, `io.Copy` writes
`written` bytes, and on copy failure the partial file is removed
(`os.Remove`) before the error is surfaced.  On success the byte count is
reported. -/
def persistRun (st : FSState) (outputPath : List Char) (written : List Nat)
    (copyFails : Bool) : Except PErr Nat × FSState :=
  match lookupFile st outputPath with
  | some _ => (.error .alreadyExists, st)
  | none =>
    let fid := st.nextId
    let st1 := { st with
      files := (outputPath, fid) :: st.files,
      contents := (fid, written) :: st.contents,
      nextId := fid + 1 }
    if copyFails then (.error .copyFail, removeFile st1 outputPath)
    else (.ok written.length, st1)

/-! ## Monitor configuration validation (`PreRunE`) -/

/-- `sysdiagnoseMinTimeout = 5 * time.Minute` in nanoseconds. -/
def sysdiagnoseMinTimeout : Int := 300000000000

/-- The duration flags of `network-health-monitor` (`time.Duration` = `Int`
nanoseconds). -/
structure MonitorConfig where
  interval : Int
  startupDelay : Int
  sysdiagnoseTimeout : Int
  deriving Repr, DecidableEq

/-- The three configuration checks of `PreRunE` (the separate euid check is a
privilege precondition, not configuration): negative interval, negative
startup delay, and timeout below the fixed minimum are each rejected. -/
def validateMonitorArgs (a : MonitorConfig) : Bool :=
  !(decide (a.interval < 0)) && !(decide (a.startupDelay < 0)) &&
    !(decide (a.sysdiagnoseTimeout < sysdiagnoseMinTimeout))

/-! ## Watchdog scheduler model

External outcomes consumed by `runNetworkHealthMonitor` /
`checkNetworkAndCollect`, per timer tick: context cancellation state at the
`select`, the IMDS probe result (`runCheckIMDS`), the host-subdirectory
`os.MkdirAll` outcome (also covering the identical re-creation inside
`runSysdiagnose`), the `sysdiagnose.Collect` outcome, and the outcome of the
persist step (exclusive create + copy). -/

structure MonitorEnv where
  cancelledDuringDelay : Bool
  cancelled : Nat → Bool
  probeOk : Nat → Bool
  mkdirOk : Nat → Bool
  collectOk : Nat → Bool
  persistOk : Nat → Bool

/-- Observable event counts of a run. -/
structure Counts where
  probes : Nat
  collections : Nat
  persists : Nat
  deriving Repr, DecidableEq

/-- All-zero counts. -/
def zeroCounts : Counts := ⟨0, 0, 0⟩

/-- Terminal error classes of the monitor run. -/
inductive MErr where
  | cancelled
  | resource
  deriving Repr, DecidableEq

/-- The polling loop of `runNetworkHealthMonitor`, fuel-bounded (`none`: the
loop was still running when the fuel ran out).  Each iteration mirrors the
source: `ctx.Done` wins the `select`, or the timer fires and
`checkNetworkAndCollect` runs — probe, then on probe failure `MkdirAll` of
the output subdirectory, then `runSysdiagnose`; any error is logged and the
loop continues; a collected sysdiagnose ends the run successfully. -/
def monitorLoop (env : MonitorEnv) :
    Nat → Nat → Counts → Option (Except MErr Unit × Counts)
  | 0, _, _ => none
  | fuel + 1, tick, c =>
    if env.cancelled tick then some (.error .cancelled, c)
    else
      let c1 : Counts := { c with probes := c.probes + 1 }
      if env.probeOk tick then monitorLoop env fuel (tick + 1) c1
      else if !(env.mkdirOk tick) then monitorLoop env fuel (tick + 1) c1
      else
        let c2 : Counts := { c1 with collections := c1.collections + 1 }
        if !(env.collectOk tick) then monitorLoop env fuel (tick + 1) c2
        else if !(env.persistOk tick) then monitorLoop env fuel (tick + 1) c2
        else some (.ok (), { c2 with persists := c2.persists + 1 })

/-- `runNetworkHealthMonitor`: the startup-delay wait (interruptible), then
the polling loop. -/
def monitorRun (env : MonitorEnv) (fuel : Nat) :
    Option (Except MErr Unit × Counts) :=
  if env.cancelledDuringDelay then some (.error .cancelled, zeroCounts)
  else monitorLoop env fuel 0 zeroCounts

/-- `filepath.Match("sysdiagnose_*.tar.gz", fname)`: literal parts around a
`*` matching any (possibly empty) run of non-separator characters. -/
def globMatchSysdiagnose (fname : List Char) : Bool :=
  ("sysdiagnose_".data).isPrefixOf fname &&
    (".tar.gz".data).isSuffixOf (fname.drop 12) &&
    ((fname.drop 12).take (fname.length - 12 - 7)).all (fun c => !(c == '/'))

/-- Startup state consumed by the command's `RunE`: the outcome of creating
the base output directory, and the file names present in the host-specific
prefix directory (the prefix is resolved first; a resolution failure only
degrades it to `unknown`, changing which directory is consulted). -/
structure StartupEnv where
  baseMkdirOk : Bool
  existingUnderPrefix : List (List Char)

/-- The `RunE` of `newNetworkHealthMonitorCommand`: create the base output
directory (failure is returned, fatal); glob for
`sysdiagnose_*.tar.gz` under the prefix directory and exit successfully with
no monitoring if any match exists; otherwise run the monitor. -/
def runCommandModel (s : StartupEnv) (env : MonitorEnv) (fuel : Nat) :
    Option (Except MErr Unit × Counts) :=
  if !s.baseMkdirOk then some (.error .resource, zeroCounts)
  else if 0 < (s.existingUnderPrefix.filter globMatchSysdiagnose).length then
    some (.ok (), zeroCounts)
  else monitorRun env fuel

/-- Probe always fails, everything else succeeds, never cancelled. -/
def envAlwaysFail : MonitorEnv :=
  ⟨false, fun _ => false, fun _ => false, fun _ => true, fun _ => true, fun _ => true⟩

/-- Probe always fails; the subdirectory creation fails at tick 0 only. -/
def envMkdirFirstFails : MonitorEnv :=
  ⟨false, fun _ => false, fun _ => false, fun t => !(t == 0),
    fun _ => true, fun _ => true⟩

/-! ## Lemmas about `fields` -/

theorem fields_cons_space {c : Char} (s : List Char) (h : goIsSpace c = true) :
    fields (c :: s) = fields s := by
  simp [fields, h]

theorem fields_single {c : Char} (h : goIsSpace c = false) : fields [c] = [[c]] := by
  simp [fields, h]

theorem fields_cons2_space {c d : Char} (s : List Char) (hc : goIsSpace c = false)
    (hd : goIsSpace d = true) : fields (c :: d :: s) = [c] :: fields (d :: s) := by
  conv_lhs => rw [fields]
  simp [hc, hd]

theorem fields_cons2_nonspace {c d : Char} (s : List Char) (hc : goIsSpace c = false)
    (hd : goIsSpace d = false) :
    fields (c :: d :: s) = (c :: (fields (d :: s)).headD []) :: (fields (d :: s)).tail := by
  conv_lhs => rw [fields]
  simp [hc, hd]

theorem fields_cons_ne_nil {c : Char} (s : List Char) (h : goIsSpace c = false) :
    fields (c :: s) ≠ [] := by
  cases s with
  | nil => simp [fields, h]
  | cons d s' =>
    by_cases hd : goIsSpace d
    · rw [fields_cons2_space s' h hd]; simp
    · rw [fields_cons2_nonspace s' h (by simpa using hd)]; simp

theorem fields_length_le_cons {c : Char} (s : List Char) (h : goIsSpace c = false) :
    (fields s).length ≤ (fields (c :: s)).length := by
  cases s with
  | nil => simp [fields, h]
  | cons d s' =>
    by_cases hd : goIsSpace d
    · rw [fields_cons2_space s' h hd]; simp
    · have hd' : goIsSpace d = false := by simpa using hd
      rw [fields_cons2_nonspace s' h hd']
      have hne : fields (d :: s') ≠ [] := fields_cons_ne_nil s' hd'
      have hpos : 0 < (fields (d :: s')).length := List.length_pos.mpr hne
      simp [List.length_tail]
      omega

theorem fields_append_length (a b : List Char) :
    (fields a).length + (fields b).length ≤ (fields (a ++ b)).length + 1 := by
  induction a with
  | nil => simp [fields]
  | cons c a' ih =>
    by_cases hc : goIsSpace c
    · rw [fields_cons_space a' hc, List.cons_append, fields_cons_space (a' ++ b) hc]
      exact ih
    · have hc' : goIsSpace c = false := by simpa using hc
      cases a' with
      | nil =>
        rw [fields_single hc', List.cons_append, List.nil_append]
        have := fields_length_le_cons b hc'
        simp only [List.length_cons, List.length_nil]
        omega
      | cons d a'' =>
        by_cases hd : goIsSpace d
        · rw [fields_cons2_space a'' hc' hd, List.cons_append, List.cons_append,
            fields_cons2_space (a'' ++ b) hc' hd]
          have := ih
          rw [List.cons_append] at this
          simp only [List.length_cons]
          omega
        · have hd' : goIsSpace d = false := by simpa using hd
          rw [fields_cons2_nonspace a'' hc' hd', List.cons_append, List.cons_append,
            fields_cons2_nonspace (a'' ++ b) hc' hd']
          have h1 : fields (d :: a'') ≠ [] := fields_cons_ne_nil a'' hd'
          have h2 : fields (d :: (a'' ++ b)) ≠ [] := fields_cons_ne_nil (a'' ++ b) hd'
          have p1 : 0 < (fields (d :: a'')).length := List.length_pos.mpr h1
          have p2 : 0 < (fields (d :: (a'' ++ b))).length := List.length_pos.mpr h2
          have := ih
          rw [List.cons_append] at this
          simp only [List.length_cons, List.length_tail]
          omega

theorem fields_mem_props :
    ∀ (s t : List Char), t ∈ fields s → t ≠ [] ∧ ∀ c ∈ t, goIsSpace c = false ∧ c ∈ s := by
  intro s
  induction s with
  | nil => intro t ht; simp [fields] at ht
  | cons c s' ih =>
    intro t ht
    by_cases hc : goIsSpace c
    · rw [fields_cons_space s' hc] at ht
      obtain ⟨hne, hall⟩ := ih t ht
      exact ⟨hne, fun x hx => ⟨(hall x hx).1, List.mem_cons_of_mem c (hall x hx).2⟩⟩
    · have hc' : goIsSpace c = false := by simpa using hc
      cases s' with
      | nil =>
        rw [fields_single hc'] at ht
        simp at ht
        subst ht
        exact ⟨by simp, by intro x hx; simp at hx; subst hx; simp [hc']⟩
      | cons d s'' =>
        by_cases hd : goIsSpace d
        · rw [fields_cons2_space s'' hc' hd] at ht
          rcases List.mem_cons.mp ht with h | h
          · subst h
            exact ⟨by simp, by intro x hx; simp at hx; subst hx; simp [hc']⟩
          · obtain ⟨hne, hall⟩ := ih t h
            exact ⟨hne, fun x hx => ⟨(hall x hx).1, List.mem_cons_of_mem c (hall x hx).2⟩⟩
        · have hd' : goIsSpace d = false := by simpa using hd
          rw [fields_cons2_nonspace s'' hc' hd'] at ht
          have h1 : fields (d :: s'') ≠ [] := fields_cons_ne_nil s'' hd'
          obtain ⟨t0, ts, hts⟩ := List.exists_cons_of_ne_nil h1
          rw [hts] at ht
          simp only [List.headD_cons, List.tail_cons] at ht
          rcases List.mem_cons.mp ht with h | h
          · subst h
            have hmem : t0 ∈ fields (d :: s'') := by rw [hts]; exact List.mem_cons_self _ _
            obtain ⟨_, hall⟩ := ih t0 hmem
            refine ⟨by simp, ?_⟩
            intro x hx
            rcases List.mem_cons.mp hx with h' | h'
            · subst h'; exact ⟨hc', List.mem_cons_self _ _⟩
            · exact ⟨(hall x h').1, List.mem_cons_of_mem c (hall x h').2⟩
          · have hmem : t ∈ fields (d :: s'') := by rw [hts]; exact List.mem_cons_of_mem _ h
            obtain ⟨hne, hall⟩ := ih t hmem
            exact ⟨hne, fun x hx => ⟨(hall x hx).1, List.mem_cons_of_mem c (hall x hx).2⟩⟩

/-! ## Lemmas about the line matcher -/

theorem lineUUID_some_inv {line v : List Char} (h : lineUUID line = some v) :
    (uuidKeyQuoted <:+: line) ∧
      ∃ k x, fields (stripQuotes line) = [k, x, v] ∧ k = uuidKey ∧ v ≠ [] := by
  unfold lineUUID at h
  by_cases hinf : uuidKeyQuoted <:+: line
  · refine ⟨hinf, ?_⟩
    simp only [hinf, decide_True, Bool.not_true, Bool.false_eq_true, if_false] at h
    rcases hf : fields (stripQuotes line) with _ | ⟨k, _ | ⟨x, _ | ⟨u, _ | ⟨w, rest⟩⟩⟩⟩ <;>
      rw [hf] at h
    · exact absurd h (by simp)
    · exact absurd h (by simp)
    · exact absurd h (by simp)
    · simp only at h
      split at h
      · exact absurd h (by simp)
      · split at h
        · exact absurd h (by simp)
        · next hk hu =>
          have hk' : k = uuidKey := by
            have : (k == uuidKey) = true := by
              cases hkk : k == uuidKey
              · exact absurd (by rw [hkk]; rfl) hk
              · rfl
            exact eq_of_beq this
          have hu' : u ≠ [] := by
            intro he
            exact hu (by rw [he]; rfl)
          obtain rfl : u = v := by injection h
          exact ⟨k, x, rfl, hk', hu'⟩
    · exact absurd h (by simp)
  · simp only [hinf, decide_False, Bool.not_false, if_true] at h
    exact absurd h (by simp)

theorem lineUUID_none_of_len {line : List Char}
    (h : (fields (stripQuotes line)).length ≠ 3) : lineUUID line = none := by
  unfold lineUUID
  split
  · rfl
  · rcases hf : fields (stripQuotes line) with _ | ⟨k, _ | ⟨x, _ | ⟨u, _ | ⟨w, rest⟩⟩⟩⟩
    · rfl
    · rfl
    · rfl
    · exact absurd (by rw [hf]; rfl) h
    · rfl

theorem scanLinesUUID_some :
    ∀ (ls : List (List Char)) (v : List Char), scanLinesUUID ls = some v →
      ∃ l ∈ ls, lineUUID l = some v := by
  intro ls
  induction ls with
  | nil => intro v h; simp [scanLinesUUID] at h
  | cons l ls' ih =>
    intro v h
    unfold scanLinesUUID at h
    rcases hl : lineUUID l with _ | w
    · rw [hl] at h
      obtain ⟨l', hm, hl'⟩ := ih v h
      exact ⟨l', List.mem_cons_of_mem _ hm, hl'⟩
    · rw [hl] at h
      simp only at h
      obtain rfl : w = v := by injection h
      exact ⟨l, List.mem_cons_self _ _, hl⟩

/-- Claim C7 (counterexample): the unquoted line decomposes, after quote
stripping, into exactly 3 fields with field 1 the key and field 3 non-empty,
yet the matcher rejects it (the source first requires the line to contain the
quoted key literal). -/
theorem c7_unquoted_line_rejected :
    specLineOk ("IOPlatformUUID = ABC".data) = true ∧
    lineAccept ("IOPlatformUUID = ABC".data) = false := by
  constructor
  · decide
  · decide

/-- Claim C7 (amended): the line matcher accepts a line iff the line contains
the quoted key token AND, after stripping quote characters, it decomposes into
exactly 3 whitespace-separated fields with field 1 equal to the key and
field 3 non-empty; and every concatenation of two accepted lines with no
separating whitespace is rejected. -/
theorem c7_line_matcher_amended :
    (∀ line, lineAccept line = true ↔
      (uuidKeyQuoted <:+: line ∧ specLineOk line = true)) ∧
    (∀ l1 l2, lineAccept l1 = true → lineAccept l2 = true →
      lineAccept (l1 ++ l2) = false) := by
  constructor
  · intro line
    constructor
    · intro h
      obtain ⟨v, hv⟩ := Option.isSome_iff_exists.mp h
      obtain ⟨hinf, k, x, hf, hk, hne⟩ := lineUUID_some_inv hv
      refine ⟨hinf, ?_⟩
      unfold specLineOk
      rw [hf]
      simp only [hk, beq_self_eq_true, Bool.true_and]
      simpa using hne
    · rintro ⟨hinf, hok⟩
      unfold specLineOk at hok
      unfold lineAccept lineUUID
      simp only [hinf, decide_True, Bool.not_true, Bool.false_eq_true, if_false]
      rcases hf : fields (stripQuotes line) with _ | ⟨k, _ | ⟨x, _ | ⟨u, _ | ⟨w, rest⟩⟩⟩⟩ <;>
        rw [hf] at hok
      · exact absurd hok (by simp)
      · exact absurd hok (by simp)
      · exact absurd hok (by simp)
      · rw [Bool.and_eq_true] at hok
        obtain ⟨hk, hu⟩ := hok
        have hu0 : (u == []) = false := by simpa using hu
        simp [hk, hu0]
      · exact absurd hok (by simp)
  · intro l1 l2 h1 h2
    obtain ⟨v1, hv1⟩ := Option.isSome_iff_exists.mp h1
    obtain ⟨v2, hv2⟩ := Option.isSome_iff_exists.mp h2
    obtain ⟨_, k1, x1, hf1, _, _⟩ := lineUUID_some_inv hv1
    obtain ⟨_, k2, x2, hf2, _, _⟩ := lineUUID_some_inv hv2
    have hsplit : stripQuotes (l1 ++ l2) = stripQuotes l1 ++ stripQuotes l2 :=
      List.filter_append _ _
    have hlen := fields_append_length (stripQuotes l1) (stripQuotes l2)
    rw [hf1, hf2] at hlen
    have hlen3 : (fields (stripQuotes (l1 ++ l2))).length ≠ 3 := by
      rw [hsplit]
      simp only [List.length_cons, List.length_nil] at hlen
      omega
    unfold lineAccept
    rw [lineUUID_none_of_len hlen3]
    rfl

/-- Claim C7 witness: applying the amended theorem at a concrete accepted
line, its self-concatenation is rejected. -/
theorem c7_line_matcher_amended_witness :
    lineAccept (("\"IOPlatformUUID\" = \"A\"".data) ++ ("\"IOPlatformUUID\" = \"A\"".data)) =
      false :=
  c7_line_matcher_amended.2 ("\"IOPlatformUUID\" = \"A\"".data)
    ("\"IOPlatformUUID\" = \"A\"".data) (by decide) (by decide)

/-- Claim C10: whenever identity resolution succeeds on some registry-query
output, the extracted token is non-empty, contains no whitespace character and
contains no double quote. -/
theorem c10_identity_token_shape :
    ∀ (data v : List Char), parseUUIDFromOutput data = some v →
      v ≠ [] ∧ ∀ c ∈ v, goIsSpace c = false ∧ c ≠ '"' := by
  intro data v h
  unfold parseUUIDFromOutput at h
  obtain ⟨l, _, hl⟩ := scanLinesUUID_some _ _ h
  obtain ⟨_, k, x, hf, _, hne⟩ := lineUUID_some_inv hl
  have hv : v ∈ fields (stripQuotes l) := by rw [hf]; simp
  obtain ⟨_, hall⟩ := fields_mem_props _ _ hv
  refine ⟨hne, fun c hc => ⟨(hall c hc).1, ?_⟩⟩
  have hmem : c ∈ stripQuotes l := (hall c hc).2
  unfold stripQuotes at hmem
  have := (List.mem_filter.mp hmem).2
  simpa using this

/-- Claim C10 witness: the theorem applied to a concrete ioreg-style output. -/
theorem c10_identity_token_shape_witness :
    ("XYZ".data ≠ ([] : List Char)) ∧
      ∀ c ∈ "XYZ".data, goIsSpace c = false ∧ c ≠ '"' :=
  c10_identity_token_shape ("noise\n  \"IOPlatformUUID\" = \"XYZ\"\nrest".data)
    ("XYZ".data) (by decide)

/-! ## Lemmas about the path functions -/

theorem splitSegs_ne_nil (s : List Char) : splitSegs s ≠ [] := by
  cases s with
  | nil => simp [splitSegs]
  | cons c rest =>
    simp only [splitSegs]
    split <;> simp

theorem splitSegs_no_slash {s : List Char} (h : '/' ∉ s) : splitSegs s = [s] := by
  induction s with
  | nil => rfl
  | cons c rest ih =>
    have hc : ¬ c = '/' := fun he => h (by rw [he]; exact List.mem_cons_self _ _)
    have hr : '/' ∉ rest := fun hm => h (List.mem_cons_of_mem _ hm)
    simp [splitSegs, ih hr, hc]

theorem splitSegs_append (a b : List Char) :
    splitSegs (a ++ '/' :: b) = splitSegs a ++ splitSegs b := by
  induction a with
  | nil => simp [splitSegs]
  | cons c a' ih =>
    rw [List.cons_append]
    by_cases hc : c = '/'
    · simp only [splitSegs, ih, hc]
      simp
    · obtain ⟨t, ts, hts⟩ := List.exists_cons_of_ne_nil (splitSegs_ne_nil a')
      simp only [splitSegs, ih, hts]
      simp [hc]

theorem archiveExt_length : archiveExt.length = 7 := rfl

theorem name_ext_ne_nil (name : List Char) : name ++ archiveExt ≠ [] := by
  intro he
  have := congrArg List.length he
  simp [archiveExt_length] at this

theorem name_ext_ne_dot (name : List Char) : name ++ archiveExt ≠ ['.'] := by
  intro he
  have := congrArg List.length he
  simp [archiveExt_length] at this

theorem name_ext_ne_dotdot (name : List Char) : name ++ archiveExt ≠ ['.', '.'] := by
  intro he
  have := congrArg List.length he
  simp [archiveExt_length] at this

/-- For a separator-free archive name, the computed archive path is exactly
`workDir/name.tar.gz` under the concrete ephemeral workspace. -/
theorem archivePath_no_slash {name : List Char} (h : '/' ∉ name) :
    archiveOutputPath tmpWorkDir name = tmpWorkDir ++ '/' :: (name ++ archiveExt) := by
  unfold archiveOutputPath goJoin
  rw [if_neg (by decide : ¬ (tmpWorkDir = ([] : List Char))),
    if_neg (name_ext_ne_nil name)]
  have hslash : '/' ∉ name ++ archiveExt := by
    intro hm
    rcases List.mem_append.mp hm with hm | hm
    · exact h hm
    · exact absurd hm (by decide)
  have hpne : tmpWorkDir ++ '/' :: (name ++ archiveExt) ≠ [] := by
    intro he
    have := congrArg List.length he
    simp at this
  unfold goClean
  rw [if_neg hpne, if_pos (by rfl :
    (tmpWorkDir ++ '/' :: (name ++ archiveExt)).headD ' ' = '/')]
  rw [splitSegs_append tmpWorkDir (name ++ archiveExt), splitSegs_no_slash hslash]
  have hsegs : splitSegs tmpWorkDir =
      [[], "tmp".data, "sysdiagnose-helper1".data] := by decide
  rw [hsegs]
  unfold cleanSegs
  rw [List.foldl_append]
  have hfold : List.foldl (cleanStep true) []
      [[], "tmp".data, "sysdiagnose-helper1".data] =
      ["sysdiagnose-helper1".data, "tmp".data] := by decide
  rw [hfold]
  simp only [List.foldl_cons, List.foldl_nil]
  unfold cleanStep
  rw [if_neg (name_ext_ne_nil name), if_neg (name_ext_ne_dot name),
    if_neg (name_ext_ne_dotdot name)]
  rfl

/-- Claim C3 (counterexample): the archive name `../` contains a path
separator, yet `Collect`'s validation accepts it, and the resulting archive
path escapes the ephemeral workspace root. -/
theorem c3_traversal_name_accepted :
    collectNameOk ("../".data) = true ∧ '/' ∈ ("../".data) ∧
    ¬ (tmpWorkDir ++ ['/'] <+: archiveOutputPath tmpWorkDir ("../".data)) := by
  refine ⟨by decide, by decide, ?_⟩
  intro h
  have : (tmpWorkDir ++ ['/']).isPrefixOf
      (archiveOutputPath tmpWorkDir ("../".data)) = true := by
    exact List.isPrefixOf_iff_prefix.mpr h
  exact absurd this (by decide)

/-- Claim C3 (amended): `Collect` rejects an archive name iff it is empty or
its basename differs from its cleaned form; every accepted name free of path
separators yields an archive path strictly inside the ephemeral workspace
root (some separator-containing names, such as `../`, are also accepted and
may escape it). -/
theorem c3_name_validation_amended (name : List Char) :
    (collectNameOk name = true ↔ name ≠ [] ∧ goBase name = goClean name) ∧
    (collectNameOk name = true → '/' ∉ name →
      tmpWorkDir ++ ['/'] <+: archiveOutputPath tmpWorkDir name) := by
  constructor
  · simp [collectNameOk, List.isEmpty_iff, Bool.and_eq_true, beq_iff_eq]
  · intro _ hsl
    rw [archivePath_no_slash hsl, List.append_cons tmpWorkDir '/' (name ++ archiveExt)]
    exact List.prefix_append _ _

/-- Claim C3 witness: the amended containment at a concrete accepted name. -/
theorem c3_name_validation_amended_witness :
    tmpWorkDir ++ ['/'] <+: archiveOutputPath tmpWorkDir ("arch".data) :=
  (c3_name_validation_amended ("arch".data)).2 (by decide) (by decide)

/-! ## Lemmas about the filesystem model -/

theorem lookupFile_removeFile (st : FSState) (p : List Char) :
    lookupFile (removeFile st p) p = none := by
  unfold lookupFile removeFile
  have h : (st.files.filter (fun e => !(e.1 == p))).find? (fun e => e.1 == p) = none := by
    rw [List.find?_eq_none]
    intro e he
    have h2 := (List.mem_filter.mp he).2
    simp at h2
    simp [h2]
  simp only [h, Option.map_none']

theorem lookupFile_filter_none (st : FSState) (p : List Char)
    (q : List Char × Nat → Bool) (h : lookupFile st p = none) :
    ((st.files.filter q).find? (fun e => e.1 == p)).map
      (fun e => e.2) = none := by
  unfold lookupFile at h
  have h0 : st.files.find? (fun e => e.1 == p) = none := by
    cases hf : st.files.find? (fun e => e.1 == p) with
    | none => rfl
    | some e => rw [hf] at h; simp at h
  rw [List.find?_eq_none] at h0
  have : (st.files.filter q).find? (fun e => e.1 == p) = none := by
    rw [List.find?_eq_none]
    intro e he
    exact h0 e (List.mem_filter.mp he).1
  simp [this]

theorem lookupFile_removeAllDir_of_none (st : FSState) (d p : List Char)
    (h : lookupFile st p = none) : lookupFile (removeAllDir st d) p = none := by
  unfold removeAllDir lookupFile
  exact lookupFile_filter_none st p _ h

/-- Claim C4: for every successful call to `Collect`, at the moment it
returns the archive's directory entry is absent (a path lookup fails) while
the returned handle still yields the full original archive bytes. -/
theorem c4_collect_unlinked_stream :
    ∀ (f : CollectFaults) (st : FSState) (workDir archiveName : List Char)
      (bytes : List Nat) (fid : Nat) (st' : FSState),
      collectRun f st workDir archiveName bytes = (.ok fid, st') →
      lookupFile st' (archiveOutputPath workDir archiveName) = none ∧
      readHandle st' fid = some bytes := by
  intro f st wd name bytes fid st' h
  unfold collectRun at h
  split at h
  · simp at h
  · split at h
    · simp at h
    · split at h
      · simp at h
      · split at h
        · simp at h
        · split at h
          · simp at h
          · simp only [Prod.mk.injEq, Except.ok.injEq] at h
            obtain ⟨rfl, rfl⟩ := h
            constructor
            · exact lookupFile_removeAllDir_of_none _ _ _ (lookupFile_removeFile _ _)
            · unfold readHandle removeAllDir removeFile
              simp [List.find?]

/-- Claim C4 witness: the theorem applied to a concrete fault-free run. -/
theorem c4_collect_unlinked_stream_witness :
    lookupFile ⟨[], [], [(0, [1, 2])], 1⟩
      (archiveOutputPath tmpWorkDir ("arch".data)) = none ∧
    readHandle ⟨[], [], [(0, [1, 2])], 1⟩ 0 = some [1, 2] :=
  c4_collect_unlinked_stream ⟨false, false, false⟩ fs0 tmpWorkDir ("arch".data)
    [1, 2] 0 ⟨[], [], [(0, [1, 2])], 1⟩ rfl

/-- Claim C5 (code-bug evidence): the deferred workspace removal is
registered only after the chmod, so a chmod failure returns an error with the
freshly created workspace directory still present; by contrast a later
failure (external process) does remove the workspace. -/
theorem c5_chmod_failure_leaks_workspace :
    (collectRun ⟨false, true, false⟩ fs0 tmpWorkDir ("arch".data) []).1 =
      .error .chmodFail ∧
    tmpWorkDir ∈ (collectRun ⟨false, true, false⟩ fs0 tmpWorkDir ("arch".data) []).2.dirs ∧
    (collectRun ⟨false, false, true⟩ fs0 tmpWorkDir ("arch".data) []).2.dirs = [] := by
  refine ⟨rfl, ?_, rfl⟩
  decide

/-- Claim C8: persisting onto an already-existing target path fails with the
state — hence the pre-existing file — untouched; and on a stream-copy
failure the partial output file's entry is removed before the error is
surfaced. -/
theorem c8_persist_excl_and_cleanup :
    (∀ (st : FSState) (p : List Char) (w : List Nat) (cf : Bool),
      (lookupFile st p).isSome = true →
      persistRun st p w cf = (.error .alreadyExists, st)) ∧
    (∀ (st : FSState) (p : List Char) (w : List Nat),
      lookupFile st p = none →
      (persistRun st p w true).1 = .error .copyFail ∧
      lookupFile (persistRun st p w true).2 p = none) := by
  constructor
  · intro st p w cf h
    obtain ⟨fid, hf⟩ := Option.isSome_iff_exists.mp h
    unfold persistRun
    rw [hf]
  · intro st p w h
    unfold persistRun
    rw [h]
    exact ⟨rfl, lookupFile_removeFile _ p⟩

/-- Claim C8 witness: both parts applied at concrete states. -/
theorem c8_persist_excl_and_cleanup_witness :
    persistRun ⟨[], [("out".data, 0)], [(0, [7])], 1⟩ ("out".data) [1, 2] false =
      (.error .alreadyExists, ⟨[], [("out".data, 0)], [(0, [7])], 1⟩) ∧
    (persistRun fs0 ("out".data) [1, 2] true).1 = .error .copyFail ∧
    lookupFile (persistRun fs0 ("out".data) [1, 2] true).2 ("out".data) = none := by
  refine ⟨?_, ?_⟩
  · exact c8_persist_excl_and_cleanup.1 ⟨[], [("out".data, 0)], [(0, [7])], 1⟩
      ("out".data) [1, 2] false (by decide)
  · exact c8_persist_excl_and_cleanup.2 fs0 ("out".data) [1, 2] (by decide)

/-! ## Scheduler claims -/

/-- Claim C1: in every run where the probe always fails and collection and
persistence always succeed (and nothing is cancelled), the scheduler performs
exactly one probe, one collection and one persisted archive, then terminates
successfully — it never starts a second collection. -/
theorem c1_single_capture :
    ∀ (env : MonitorEnv) (fuel : Nat),
      env.cancelledDuringDelay = false →
      (∀ t, env.cancelled t = false) →
      (∀ t, env.probeOk t = false) →
      (∀ t, env.mkdirOk t = true) →
      (∀ t, env.collectOk t = true) →
      (∀ t, env.persistOk t = true) →
      1 ≤ fuel →
      monitorRun env fuel = some (.ok (), ⟨1, 1, 1⟩) := by
  intro env fuel hd hc hp hm hcol hper hf
  unfold monitorRun
  rw [hd]
  obtain ⟨k, rfl⟩ : ∃ k, fuel = k + 1 := ⟨fuel - 1, by omega⟩
  rw [monitorLoop]
  rw [hc 0, hp 0, hm 0, hcol 0, hper 0]
  rfl

/-- Claim C1 witness: the theorem at a concrete environment and fuel 1. -/
theorem c1_single_capture_witness :
    monitorRun envAlwaysFail 1 = some (.ok (), ⟨1, 1, 1⟩) :=
  c1_single_capture envAlwaysFail 1 rfl (fun _ => rfl) (fun _ => rfl)
    (fun _ => rfl) (fun _ => rfl) (fun _ => rfl) (by decide)

/-- Claim C2: if at startup the base directory is creatable and some file
matching `sysdiagnose_*.tar.gz` already exists under the host-specific
subdirectory, the command performs zero probes and zero collections and exits
successfully. -/
theorem c2_preexisting_archive_skips :
    ∀ (s : StartupEnv) (env : MonitorEnv) (fuel : Nat) (fname : List Char),
      s.baseMkdirOk = true → fname ∈ s.existingUnderPrefix →
      globMatchSysdiagnose fname = true →
      runCommandModel s env fuel = some (.ok (), zeroCounts) := by
  intro s env fuel fname hb hm hg
  unfold runCommandModel
  rw [hb]
  have hmem : fname ∈ s.existingUnderPrefix.filter globMatchSysdiagnose :=
    List.mem_filter.mpr ⟨hm, hg⟩
  have hpos : 0 < (s.existingUnderPrefix.filter globMatchSysdiagnose).length :=
    List.length_pos.mpr (List.ne_nil_of_mem hmem)
  simp [hpos]

/-- Claim C2 witness: a concrete startup state holding a matching archive. -/
theorem c2_preexisting_archive_skips_witness :
    runCommandModel ⟨true, ["sysdiagnose_20240101_000000.tar.gz".data]⟩
      envAlwaysFail 5 = some (.ok (), zeroCounts) :=
  c2_preexisting_archive_skips ⟨true, ["sysdiagnose_20240101_000000.tar.gz".data]⟩
    envAlwaysFail 5 ("sysdiagnose_20240101_000000.tar.gz".data) rfl
    (by decide) (by decide)

/-- Claim C6 (counterexample): at tick 0 the probe fails and the creation of
the host-specific output subdirectory fails, yet the run does not terminate
with an error — it keeps polling (a second probe happens) and later
terminates successfully. -/
theorem c6_subdir_mkdir_failure_not_fatal :
    envMkdirFirstFails.mkdirOk 0 = false ∧
    monitorRun envMkdirFirstFails 2 = some (.ok (), ⟨2, 1, 1⟩) :=
  ⟨rfl, rfl⟩

/-- Claim C6 (amended): a base-output-directory creation failure at startup
is fatal to the run (error, no probes), but a failure to create the
host-specific subdirectory during a collection attempt is logged and the
scheduler simply continues with the next poll. -/
theorem c6_dir_failure_behavior :
    (∀ (s : StartupEnv) (env : MonitorEnv) (fuel : Nat),
      s.baseMkdirOk = false →
      runCommandModel s env fuel = some (.error .resource, zeroCounts)) ∧
    (∀ (env : MonitorEnv) (fuel tick : Nat) (c : Counts),
      env.cancelled tick = false → env.probeOk tick = false →
      env.mkdirOk tick = false →
      monitorLoop env (fuel + 1) tick c =
        monitorLoop env fuel (tick + 1) { c with probes := c.probes + 1 }) := by
  constructor
  · intro s env fuel hb
    unfold runCommandModel
    rw [hb]
    rfl
  · intro env fuel tick c hc hp hm
    rw [monitorLoop]
    rw [hc, hp, hm]
    rfl

/-- Claim C6 witness: both amended behaviours at concrete inputs. -/
theorem c6_dir_failure_behavior_witness :
    runCommandModel ⟨false, []⟩ envAlwaysFail 3 =
      some (.error .resource, zeroCounts) ∧
    monitorLoop envMkdirFirstFails 1 0 zeroCounts =
      monitorLoop envMkdirFirstFails 0 1 ⟨1, 0, 0⟩ :=
  ⟨c6_dir_failure_behavior.1 ⟨false, []⟩ envAlwaysFail 3 rfl,
    c6_dir_failure_behavior.2 envMkdirFirstFails 0 0 zeroCounts rfl rfl rfl⟩

/-- Claim C9 (counterexample): a configuration whose collection timeout
equals the fixed minimum — so does not exceed it — is nevertheless accepted
by the startup validation. -/
theorem c9_min_timeout_accepted :
    validateMonitorArgs ⟨0, 0, sysdiagnoseMinTimeout⟩ = true ∧
    ¬ (sysdiagnoseMinTimeout <
        (⟨0, 0, sysdiagnoseMinTimeout⟩ : MonitorConfig).sysdiagnoseTimeout) :=
  ⟨by decide, lt_irrefl _⟩

/-- Claim C9 (amended): the startup validation accepts a configuration iff
the poll interval is ≥ 0, the startup delay is ≥ 0, and the collection
timeout is at least (not strictly above) the fixed minimum. -/
theorem c9_validate_amended (a : MonitorConfig) :
    validateMonitorArgs a = true ↔
      0 ≤ a.interval ∧ 0 ≤ a.startupDelay ∧
        sysdiagnoseMinTimeout ≤ a.sysdiagnoseTimeout := by
  unfold validateMonitorArgs
  simp [Bool.and_eq_true, Bool.not_eq_true', decide_eq_false_iff_not, not_lt,
    and_assoc]

/-- Claim C9 witness: the amended equivalence applied at the boundary
configuration. -/
theorem c9_validate_amended_witness :
    0 ≤ (⟨0, 0, sysdiagnoseMinTimeout⟩ : MonitorConfig).interval ∧
    0 ≤ (⟨0, 0, sysdiagnoseMinTimeout⟩ : MonitorConfig).startupDelay ∧
    sysdiagnoseMinTimeout ≤
      (⟨0, 0, sysdiagnoseMinTimeout⟩ : MonitorConfig).sysdiagnoseTimeout :=
  (c9_validate_amended ⟨0, 0, sysdiagnoseMinTimeout⟩).mp (by decide)

end EC2MacosUtils
